import Mathlib

/-!
Verification development for the pmux process supervisor.

The definitions below are a shallow embedding of the Go sources:
  - pmuxlib/proc.go        : RunProcessOnce / RunProcess (supervisor loop, backoff)
  - pmuxproc/pmuxproc.go   : earlier iterations of RunProcessOnce / RunProcess
  - the logger (pmuxlib logger file and main.go's logger)

Go `time.Duration` is int64 nanoseconds; we model it as `Int` together with
an explicit 64-bit wraparound function applied where the Go code performs
arithmetic that may overflow.  Go's `%` on integers truncates toward zero,
which is Lean's `Int.tmod`.
-/

namespace Pmux

/-- 64-bit signed wraparound, as performed by Go int64 arithmetic. -/
def i64wrap (x : Int) : Int := (x + 2 ^ 63) % 2 ^ 64 - 2 ^ 63

/-- `time.Millisecond` in nanoseconds. -/
def msNs : Int := 1000000

/-- Go `time.Duration.Truncate`: `if m <= 0 { return d }; return d - d%m`,
with Go's truncated remainder. -/
def durTruncate (d m : Int) : Int := if m ≤ 0 then d else d - Int.tmod d m

/-- The wait computation of `RunProcess` (pmuxlib/proc.go line 243):
`wait = ((wait * 2) - took).Truncate(time.Millisecond)`, with each Go
arithmetic step subject to int64 wraparound. -/
def computeWait (wait took : Int) : Int :=
  durTruncate (i64wrap (i64wrap (wait * 2) - took)) msNs

/-- The full next-wait computation of `RunProcess` (pmuxlib/proc.go lines
243-249): truncated doubling-minus-elapsed, then the `if wait < MinWait`
/ `else if wait > MaxWait` clamp, in the source's order. -/
def nextWait (minWait maxWait wait took : Int) : Int :=
  let w := computeWait wait took
  if w < minWait then minWait
  else if w > maxWait then maxWait
  else w

/-- Mathematical clamp, written from the spec's words
`clamp(2*previousWait - elapsed, minWait, maxWait)`. -/
def clampSpec (x lo hi : Int) : Int := max lo (min hi x)

theorem i64wrap_eq_self {x : Int} (h1 : -(2 ^ 63) ≤ x) (h2 : x < 2 ^ 63) :
    i64wrap x = x := by
  unfold i64wrap
  have h3 : (0 : Int) ≤ x + 2 ^ 63 := by omega
  have h4 : x + 2 ^ 63 < 2 ^ 64 := by omega
  rw [Int.emod_eq_of_lt h3 h4]
  omega

theorem durTruncate_nonpos {d m : Int} (hd : d ≤ 0) (hm : 0 < m) :
    durTruncate d m ≤ 0 := by
  unfold durTruncate
  rw [if_neg (by omega)]
  have h1 : d - Int.tmod d m = m * d.tdiv m := by
    have := Int.tdiv_add_tmod d m
    omega
  have h2 : d.tdiv m ≤ 0 := by
    have h3 : (0 : Int) ≤ (-d).tdiv m := Int.tdiv_nonneg (by omega) (by omega)
    have h4 : (-d).tdiv m = -(d.tdiv m) := Int.neg_tdiv d m
    omega
  have h5 : m * d.tdiv m ≤ 0 := mul_nonpos_of_nonneg_of_nonpos (by omega) h2
  omega

theorem durTruncate_le {d m : Int} (hd : 0 ≤ d) (hm : 0 < m) :
    durTruncate d m ≤ d := by
  unfold durTruncate
  rw [if_neg (by omega)]
  have := Int.tmod_nonneg m hd
  omega

theorem durTruncate_ge {d m : Int} (hm : 0 < m) :
    d - m < durTruncate d m := by
  unfold durTruncate
  rw [if_neg (by omega)]
  have := Int.tmod_lt_of_pos d hm
  omega

theorem computeWait_in_bounds {wait took : Int} (hw0 : 0 ≤ wait)
    (hw1 : wait < 2 ^ 62) (ht0 : 0 ≤ took) (ht1 : took < 2 ^ 63) :
    computeWait wait took = durTruncate (wait * 2 - took) msNs := by
  have e1 : i64wrap (wait * 2) = wait * 2 := i64wrap_eq_self (by omega) (by omega)
  have e2 : i64wrap (wait * 2 - took) = wait * 2 - took :=
    i64wrap_eq_self (by omega) (by omega)
  unfold computeWait
  rw [e1, e2]

theorem msNs_pos : (0 : Int) < msNs := by unfold msNs; norm_num

/-- C2: for every supervisor iteration that decides to restart, the next wait
equals `clamp((2*previousWait - elapsed) truncated to 1ms, minWait, maxWait)`,
and with the initial `previousWait = 0` the first restart waits exactly
`minWait`. -/
theorem nextWait_eq_clamp_and_first_is_minWait
    (minWait maxWait wait took : Int)
    (hmin : 0 < minWait) (hminmax : minWait ≤ maxWait) (hmax : maxWait < 2 ^ 62)
    (hw0 : 0 ≤ wait) (hw1 : wait ≤ maxWait)
    (ht0 : 0 ≤ took) (ht1 : took < 2 ^ 63) :
    nextWait minWait maxWait wait took
      = clampSpec (durTruncate (2 * wait - took) msNs) minWait maxWait ∧
    nextWait minWait maxWait 0 took = minWait := by
  constructor
  · have e : computeWait wait took = durTruncate (wait * 2 - took) msNs :=
      computeWait_in_bounds hw0 (by omega) ht0 ht1
    unfold nextWait clampSpec
    rw [e]
    have e2 : wait * 2 - took = 2 * wait - took := by ring_nf
    rw [e2]
    rcases le_or_lt minWait (durTruncate (2 * wait - took) msNs) with h | h
    · rcases le_or_lt (durTruncate (2 * wait - took) msNs) maxWait with h2 | h2
      · rw [if_neg (by omega), if_neg (by omega)]
        omega
      · rw [if_neg (by omega), if_pos (by omega)]
        omega
    · rw [if_pos (by omega)]
      omega
  · have e : computeWait 0 took = durTruncate (0 * 2 - took) msNs :=
      computeWait_in_bounds (by omega) (by omega) ht0 ht1
    have h0 : (0 : Int) * 2 - took = -took := by ring_nf
    have hle : durTruncate (-took) msNs ≤ 0 :=
      durTruncate_nonpos (by omega) msNs_pos
    unfold nextWait
    rw [e, h0, if_pos (by omega)]

/-- Witness for `nextWait_eq_clamp_and_first_is_minWait` at the default
configuration (minWait 1s, maxWait 64s) with wait 5s and elapsed 3s. -/
theorem nextWait_eq_clamp_and_first_is_minWait_witness :
    nextWait 1000000000 64000000000 5000000000 3000000000
      = clampSpec (durTruncate (2 * 5000000000 - 3000000000) msNs)
          1000000000 64000000000 ∧
    nextWait 1000000000 64000000000 0 3000000000 = 1000000000 :=
  nextWait_eq_clamp_and_first_is_minWait 1000000000 64000000000 5000000000
    3000000000 (by norm_num) (by norm_num) (by norm_num) (by norm_num)
    (by norm_num) (by norm_num) (by norm_num)

/-- C3 counterexample: an attempt that fails faster than the previous wait
(`took < wait`, here 1ns less than a 1s wait) but whose computed next wait
does NOT strictly increase: millisecond truncation swallows the sub-ms
increment, so the next wait equals the previous one, even though the previous
wait lies strictly between `minWait` and `maxWait`. -/
theorem nextWait_not_strictly_increasing :
    (999999999 : Int) < 1000000000 ∧
    (500000000 : Int) ≤ 1000000000 ∧
    (1000000000 : Int) < 64000000000 ∧
    nextWait 500000000 64000000000 1000000000 999999999 = 1000000000 := by
  refine ⟨by norm_num, by norm_num, by norm_num, ?_⟩
  decide

/-- C3 amended: with `0 < minWait ≤ maxWait`, the computed wait always lies
in `[minWait, maxWait]` (in particular it is never negative, even when
`2*wait - took` is negative before clamping); it strictly increases while
below `maxWait` provided the attempt's elapsed time is at least one
millisecond less than the previous wait (mere `took < wait` is not enough,
by the counterexample); and after a single run with `took ≥ 2*maxWait` the
next wait is exactly `minWait`. -/
theorem nextWait_bounds_increase_reset
    (minWait maxWait wait took : Int)
    (hmin : 0 < minWait) (hminmax : minWait ≤ maxWait) (hmax : maxWait < 2 ^ 62)
    (hw0 : 0 ≤ wait) (hw1 : wait ≤ maxWait)
    (ht0 : 0 ≤ took) (ht1 : took < 2 ^ 63) :
    minWait ≤ nextWait minWait maxWait wait took ∧
    nextWait minWait maxWait wait took ≤ maxWait ∧
    (minWait ≤ wait → wait < maxWait → took ≤ wait - msNs →
      wait < nextWait minWait maxWait wait took) ∧
    (2 * maxWait ≤ took → nextWait minWait maxWait wait took = minWait) := by
  have e : computeWait wait took = durTruncate (wait * 2 - took) msNs :=
    computeWait_in_bounds hw0 (by omega) ht0 ht1
  refine ⟨?_, ?_, ?_, ?_⟩
  · unfold nextWait
    rw [e]
    rcases lt_or_le (durTruncate (wait * 2 - took) msNs) minWait with h | h
    · rw [if_pos h]
    · rw [if_neg (by omega)]
      rcases lt_or_le maxWait (durTruncate (wait * 2 - took) msNs) with h2 | h2
      · rw [if_pos (by omega)]; omega
      · rw [if_neg (by omega)]; omega
  · unfold nextWait
    rw [e]
    rcases lt_or_le (durTruncate (wait * 2 - took) msNs) minWait with h | h
    · rw [if_pos h]; omega
    · rw [if_neg (by omega)]
      rcases lt_or_le maxWait (durTruncate (wait * 2 - took) msNs) with h2 | h2
      · rw [if_pos (by omega)]
      · rw [if_neg (by omega)]; omega
  · intro hge hlt hsep
    have hms : msNs = 1000000 := rfl
    have hgt : wait < durTruncate (wait * 2 - took) msNs := by
      have h9 : wait * 2 - took - msNs < durTruncate (wait * 2 - took) msNs :=
        durTruncate_ge msNs_pos
      omega
    unfold nextWait
    rw [e]
    rw [if_neg (by omega)]
    rcases lt_or_le maxWait (durTruncate (wait * 2 - took) msNs) with h2 | h2
    · rw [if_pos (by omega)]; omega
    · rw [if_neg (by omega)]; omega
  · intro hbig
    have hle : durTruncate (wait * 2 - took) msNs ≤ 0 :=
      durTruncate_nonpos (by omega) msNs_pos
    unfold nextWait
    rw [e, if_pos (by omega)]

/-- Witness for `nextWait_bounds_increase_reset`: default 1s/64s bounds,
previous wait 2s, elapsed 500ms (at least 1ms below the previous wait). -/
theorem nextWait_bounds_increase_reset_witness :
    1000000000 ≤ nextWait 1000000000 64000000000 2000000000 500000000 ∧
    nextWait 1000000000 64000000000 2000000000 500000000 ≤ 64000000000 ∧
    (1000000000 ≤ (2000000000 : Int) → (2000000000 : Int) < 64000000000 →
      (500000000 : Int) ≤ 2000000000 - msNs →
      2000000000 < nextWait 1000000000 64000000000 2000000000 500000000) ∧
    (2 * 64000000000 ≤ (500000000 : Int) →
      nextWait 1000000000 64000000000 2000000000 500000000 = 1000000000) :=
  nextWait_bounds_increase_reset 1000000000 64000000000 2000000000 500000000
    (by norm_num) (by norm_num) (by norm_num) (by norm_num) (by norm_num)
    (by norm_num) (by norm_num)

/-! ## The supervisor loop of `RunProcess` (pmuxlib/proc.go lines 208-259) -/

/-- The spec's supervisor states. `RUNNING` is folded into the attempt itself:
each loop iteration of `RunProcess` is one blocking `RunProcessOnce` call, so
the trace records `STARTING`, then the observed `EXITED code`, then either
`STOPPED` or `RESTART_WAIT`. -/
inductive SupState
  | STARTING
  | EXITED (code : Int)
  | RESTART_WAIT
  | STOPPED
deriving DecidableEq, Repr

/-- The fields of `ProcessConfig` that the `RunProcess` loop reads. -/
structure RunCfg where
  minWait : Int
  maxWait : Int
  noRestartOn : List Int
deriving DecidableEq, Repr

/-- The environment-determined outcome of one `RunProcessOnce` attempt, as
observed by the `RunProcess` loop: the exit code it matches against
`NoRestartOn`, whether `ctx.Err()` was non-nil right after the attempt,
whether the restart sleep was interrupted by `ctx.Done()`, and the elapsed
wall-clock time `took`. -/
structure Attempt where
  exitCode : Int
  ctxDoneAfter : Bool
  ctxDoneInSleep : Bool
  took : Int
deriving DecidableEq, Repr

/-- The `for i := range cfg.NoRestartOn` membership scan of
pmuxlib/proc.go lines 237-241. -/
def noRestartMatch : List Int → Int → Bool
  | [], _ => false
  | c :: rest, e => if c = e then true else noRestartMatch rest e

/-- The `RunProcess` loop (pmuxlib/proc.go lines 216-258), driven by a finite
trace of attempt outcomes; `wait` is the loop-carried backoff state (initially
zero).  Each iteration: run once, log, return if `ctx.Err() != nil`, return if
the exit code matches `NoRestartOn`, otherwise compute the next wait and
sleep, returning early if the sleep is interrupted by cancellation. -/
def runProcess (cfg : RunCfg) (wait : Int) : List Attempt → List SupState
  | [] => []
  | a :: rest =>
      SupState.STARTING :: SupState.EXITED a.exitCode ::
        (if a.ctxDoneAfter then [SupState.STOPPED]
         else if noRestartMatch cfg.noRestartOn a.exitCode then [SupState.STOPPED]
         else SupState.RESTART_WAIT ::
           (if a.ctxDoneInSleep then [SupState.STOPPED]
            else runProcess cfg (nextWait cfg.minWait cfg.maxWait wait a.took) rest))

/-- Every occurrence of `STOPPED` in a trace is terminal: nothing follows it.
This expresses both "at most once" and "irreversible". -/
def stoppedOnlyLast : List SupState → Bool
  | [] => true
  | SupState.STOPPED :: rest => rest.isEmpty
  | _ :: rest => stoppedOnlyLast rest

theorem noRestartMatch_iff_mem (l : List Int) (e : Int) :
    noRestartMatch l e = true ↔ e ∈ l := by
  induction l with
  | nil => simp [noRestartMatch]
  | cons c rest ih =>
      by_cases h : c = e
      · simp [noRestartMatch, h]
      · simp [noRestartMatch, h, ih]
        intro hmm
        omega

theorem stoppedOnlyLast_runProcess (cfg : RunCfg) (wait : Int)
    (atts : List Attempt) : stoppedOnlyLast (runProcess cfg wait atts) = true := by
  induction atts generalizing wait with
  | nil => rfl
  | cons a rest ih =>
      unfold runProcess stoppedOnlyLast
      rcases a.ctxDoneAfter with _ | _
      · simp only [Bool.false_eq_true, if_false]
        rcases h2 : noRestartMatch cfg.noRestartOn a.exitCode with _ | _
        · simp only [Bool.false_eq_true, if_false]
          unfold stoppedOnlyLast
          rcases a.ctxDoneInSleep with _ | _
          · simpa using ih (nextWait cfg.minWait cfg.maxWait wait a.took)
          · simp [stoppedOnlyLast]
        · simp [stoppedOnlyLast]
      · simp [stoppedOnlyLast]

/-- C1: after every attempt, `RunProcess` stops (reaching `STOPPED`) if the
cancellation signal is set — unconditionally, before the no-restart check —
or else if the exit code is in `noRestartOn` (the code's scan agrees with
list membership); otherwise it proceeds to `RESTART_WAIT` and schedules
another attempt (the sleep itself still being cancellable).  In every trace,
`STOPPED` occurs at most once and nothing ever follows it. -/
theorem runProcess_stop_policy (cfg : RunCfg) (wait : Int) (a : Attempt)
    (rest atts : List Attempt) :
    (a.ctxDoneAfter = true →
      runProcess cfg wait (a :: rest)
        = [SupState.STARTING, SupState.EXITED a.exitCode, SupState.STOPPED]) ∧
    (a.ctxDoneAfter = false → a.exitCode ∈ cfg.noRestartOn →
      runProcess cfg wait (a :: rest)
        = [SupState.STARTING, SupState.EXITED a.exitCode, SupState.STOPPED]) ∧
    (a.ctxDoneAfter = false → ¬ a.exitCode ∈ cfg.noRestartOn →
      runProcess cfg wait (a :: rest)
        = SupState.STARTING :: SupState.EXITED a.exitCode ::
            SupState.RESTART_WAIT ::
            (if a.ctxDoneInSleep then [SupState.STOPPED]
             else runProcess cfg
               (nextWait cfg.minWait cfg.maxWait wait a.took) rest)) ∧
    (noRestartMatch cfg.noRestartOn a.exitCode = true
      ↔ a.exitCode ∈ cfg.noRestartOn) ∧
    stoppedOnlyLast (runProcess cfg wait atts) = true := by
  refine ⟨?_, ?_, ?_, noRestartMatch_iff_mem cfg.noRestartOn a.exitCode,
    stoppedOnlyLast_runProcess cfg wait atts⟩
  · intro h
    unfold runProcess
    rw [if_pos h]
  · intro h hmem
    unfold runProcess
    rw [if_neg (by simp [h]), if_pos ((noRestartMatch_iff_mem _ _).mpr hmem)]
  · intro h hmem
    have hnm : noRestartMatch cfg.noRestartOn a.exitCode = false := by
      rcases hh : noRestartMatch cfg.noRestartOn a.exitCode with _ | _
      · rfl
      · exact absurd ((noRestartMatch_iff_mem _ _).mp hh) hmem
    conv =>
      lhs
      unfold runProcess
    rw [if_neg (by simp [h]), if_neg (by simp [hnm])]

/-- Witness for `runProcess_stop_policy`: a no-restart code 3 attempt under
the default bounds, followed by an empty remainder, stops immediately. -/
theorem runProcess_stop_policy_witness :
    ((⟨3, false, false, 0⟩ : Attempt).ctxDoneAfter = true →
      runProcess ⟨1000000000, 64000000000, [3]⟩ 0 [⟨3, false, false, 0⟩]
        = [SupState.STARTING, SupState.EXITED 3, SupState.STOPPED]) ∧
    ((⟨3, false, false, 0⟩ : Attempt).ctxDoneAfter = false →
      (3 : Int) ∈ [(3 : Int)] →
      runProcess ⟨1000000000, 64000000000, [3]⟩ 0 [⟨3, false, false, 0⟩]
        = [SupState.STARTING, SupState.EXITED 3, SupState.STOPPED]) ∧
    ((⟨3, false, false, 0⟩ : Attempt).ctxDoneAfter = false →
      ¬ (3 : Int) ∈ [(3 : Int)] →
      runProcess ⟨1000000000, 64000000000, [3]⟩ 0 [⟨3, false, false, 0⟩]
        = SupState.STARTING :: SupState.EXITED 3 :: SupState.RESTART_WAIT ::
            (if (⟨3, false, false, 0⟩ : Attempt).ctxDoneInSleep
             then [SupState.STOPPED]
             else runProcess ⟨1000000000, 64000000000, [3]⟩
               (nextWait 1000000000 64000000000 0 0) [])) ∧
    (noRestartMatch [3] 3 = true ↔ (3 : Int) ∈ [(3 : Int)]) ∧
    stoppedOnlyLast
      (runProcess ⟨1000000000, 64000000000, [3]⟩ 0 [⟨3, false, false, 0⟩])
      = true := by
  have h := runProcess_stop_policy ⟨1000000000, 64000000000, [3]⟩ 0
    ⟨3, false, false, 0⟩ [] [⟨3, false, false, 0⟩]
  exact h

/-! ## Result policy of `RunProcessOnce`
(pmuxlib/proc.go lines 145-196; pmuxproc/pmuxproc.go lines 118-165) -/

/-- Classification of a `RunProcessOnce` result's error value. -/
inductive ExitClassification
  | ok
  | cancelled
  | exitedAbnormally
  | failedToStart (stage : String)
deriving DecidableEq, Repr

/-- Go `(*os.ProcessState).ExitCode()`: the process's real exit status when
one is obtainable, `-1` otherwise (signaled, or no usable wait status). -/
def processStateExitCode : Option Int → Int
  | some code => code
  | none => -1

/-- The result tail of pmuxlib's `RunProcessOnce` (proc.go lines 185-196):
after `cmd.Wait()`, first `ctx.Err()` wins with `(-1, ctx.Err())`; then a
wait error yields `(-1, "process exited: ...")`; otherwise
`cmd.ProcessState.ExitCode()` with no error. -/
def runOnceResult (ctxErrSet waitErr : Bool) (psExit : Option Int) :
    Int × ExitClassification :=
  if ctxErrSet then (-1, ExitClassification.cancelled)
  else if waitErr then (-1, ExitClassification.exitedAbnormally)
  else (processStateExitCode psExit, ExitClassification.ok)

/-- The result tail of pmuxproc's `RunProcessOnce` (pmuxproc.go lines
156-165): `exitCode := cmd.ProcessState.ExitCode()`, returned both with and
without the "process exited" wrap; there is no `ctx.Err()` branch. -/
def pmuxprocRunOnceResult (waitErr : Bool) (psExit : Option Int) :
    Int × ExitClassification :=
  let exitCode := processStateExitCode psExit
  if waitErr then (exitCode, ExitClassification.exitedAbnormally)
  else (exitCode, ExitClassification.ok)

/-- C4 counterexample: a non-cancelled run whose process exited with status 3
(a real, obtainable exit code).  pmuxlib's `RunProcessOnce` reports `-1`,
not 3, together with the "process exited" wrap — contradicting the claim
that the actual exit code is reported and `-1` is used only when no real
code is obtainable. -/
theorem runOnceResult_drops_real_exit_code :
    runOnceResult false true (some 3)
      = (-1, ExitClassification.exitedAbnormally) ∧
    processStateExitCode (some 3) = 3 ∧ (3 : Int) ≠ -1 := by
  decide

/-- C4 amended: for a non-cancelled run with a wait error (any non-zero exit
status surfaces as one), pmuxproc's `RunProcessOnce` reports the process's
actual exit code (`-1` only when unobtainable) with the "exited abnormally"
classification, while pmuxlib's `RunProcessOnce` reports `-1`
unconditionally with that same classification. -/
theorem runProcessOnce_abnormal_exit_reporting (waitErr : Bool)
    (psExit : Option Int) :
    (waitErr = true →
      pmuxprocRunOnceResult waitErr psExit
        = (processStateExitCode psExit, ExitClassification.exitedAbnormally)) ∧
    (waitErr = true →
      runOnceResult false waitErr psExit
        = (-1, ExitClassification.exitedAbnormally)) ∧
    (∀ code : Int, processStateExitCode (some code) = code) ∧
    processStateExitCode none = -1 := by
  refine ⟨?_, ?_, fun code => rfl, rfl⟩
  · intro h
    simp [pmuxprocRunOnceResult, h]
  · intro h
    simp [runOnceResult, h]

/-- Witness for `runProcessOnce_abnormal_exit_reporting` at a wait error
with obtainable exit status 7. -/
theorem runProcessOnce_abnormal_exit_reporting_witness :
    (true = true →
      pmuxprocRunOnceResult true (some 7)
        = (processStateExitCode (some 7), ExitClassification.exitedAbnormally)) ∧
    (true = true →
      runOnceResult false true (some 7)
        = (-1, ExitClassification.exitedAbnormally)) ∧
    (∀ code : Int, processStateExitCode (some code) = code) ∧
    processStateExitCode none = -1 :=
  runProcessOnce_abnormal_exit_reporting true (some 7)

/-- C5: whenever the cancellation signal is observed set at completion of the
attempt, pmuxlib's `RunProcessOnce` reports exit code `-1` with the
cancelled classification (the cancellation error itself, not an
"exited abnormally" wrap), regardless of the wait error or the underlying
exit status; and the cancelled classification is reported exactly when
cancellation was observed. -/
theorem runOnceResult_cancelled_policy (waitErr : Bool) (psExit : Option Int) :
    runOnceResult true waitErr psExit = (-1, ExitClassification.cancelled) ∧
    (∀ ctxErrSet : Bool,
      ((runOnceResult ctxErrSet waitErr psExit).2 = ExitClassification.cancelled
        ↔ ctxErrSet = true)) := by
  constructor
  · rfl
  · intro ctxErrSet
    rcases ctxErrSet with _ | _
    · rcases waitErr with _ | _ <;> simp [runOnceResult, processStateExitCode]
    · simp [runOnceResult]

/-- Witness for `runOnceResult_cancelled_policy` at a wait error with
underlying exit status 5. -/
theorem runOnceResult_cancelled_policy_witness :
    runOnceResult true true (some 5) = (-1, ExitClassification.cancelled) ∧
    (∀ ctxErrSet : Bool,
      ((runOnceResult ctxErrSet true (some 5)).2 = ExitClassification.cancelled
        ↔ ctxErrSet = true)) :=
  runOnceResult_cancelled_policy true (some 5)

/-! ## Setup phase of pmuxlib's `RunProcessOnce` (proc.go lines 145-181) -/

/-- What the setup phase produced: an early-return result for setup
failures, how many relay goroutines were started, and whether the
signal-escalator goroutine was started. -/
structure SetupTrace where
  earlyResult : Option (Int × ExitClassification)
  relaysStarted : Nat
  escalatorStarted : Bool
deriving DecidableEq, Repr

/-- Which setup steps fail in a given run of the environment. -/
structure StartOutcome where
  stdoutPipeErr : Bool
  stderrPipeErr : Bool
  startErr : Bool
deriving DecidableEq, Repr

/-- The setup phase of pmuxlib's `RunProcessOnce`, in source order
(proc.go lines 145-181): acquire the stdout pipe, acquire the stderr pipe,
start the two `fwdOutPipe` relay goroutines, call `cmd.Start()`, and only
then start the escalator goroutine.  Each failing step returns `-1` with the
corresponding wrapped error. -/
def runOnceSetup (o : StartOutcome) : SetupTrace :=
  if o.stdoutPipeErr then
    ⟨some (-1, ExitClassification.failedToStart "getting stdout pipe"), 0, false⟩
  else if o.stderrPipeErr then
    ⟨some (-1, ExitClassification.failedToStart "getting stderr pipe"), 0, false⟩
  else if o.startErr then
    ⟨some (-1, ExitClassification.failedToStart "starting process"), 2, false⟩
  else
    ⟨none, 2, true⟩

/-- C6 counterexample: when `cmd.Start()` itself fails (pipes fine), the two
relay goroutines have already been started — `fwdOutPipe` is invoked before
`cmd.Start()` — contradicting the claim that no output-relay tasks are
created on a spawn failure. -/
theorem runOnceSetup_spawn_failure_relays_exist :
    (runOnceSetup ⟨false, false, true⟩).relaysStarted = 2 ∧
    (runOnceSetup ⟨false, false, true⟩).earlyResult
      = some (-1, ExitClassification.failedToStart "starting process") := by
  constructor <;> rfl

/-- C6 amended: every pipe-setup or spawn failure makes `RunProcessOnce`
return `-1` immediately with a "failed to start" classification and no
escalator is ever created for such an attempt; on a pipe-setup failure no
relay tasks have been created either, but on a spawn (`cmd.Start`) failure
the two relay tasks already exist. -/
theorem runOnceSetup_failure_policy (o : StartOutcome) :
    ((o.stdoutPipeErr || o.stderrPipeErr || o.startErr) = true →
      (∃ stage, (runOnceSetup o).earlyResult
        = some (-1, ExitClassification.failedToStart stage)) ∧
      (runOnceSetup o).escalatorStarted = false) ∧
    ((o.stdoutPipeErr || o.stderrPipeErr) = true →
      (runOnceSetup o).relaysStarted = 0) ∧
    (o.stdoutPipeErr = false → o.stderrPipeErr = false → o.startErr = true →
      (runOnceSetup o).relaysStarted = 2) ∧
    (o.stdoutPipeErr = false → o.stderrPipeErr = false → o.startErr = false →
      (runOnceSetup o).earlyResult = none ∧
      (runOnceSetup o).relaysStarted = 2 ∧
      (runOnceSetup o).escalatorStarted = true) := by
  rcases o with ⟨so, se, st⟩
  rcases so with _ | _ <;> rcases se with _ | _ <;> rcases st with _ | _ <;>
    refine ⟨?_, ?_, ?_, ?_⟩ <;> intros <;>
    simp_all [runOnceSetup]

/-- Witness for `runOnceSetup_failure_policy` at a stdout-pipe failure. -/
theorem runOnceSetup_failure_policy_witness :
    (((true : Bool) || false || false) = true →
      (∃ stage, (runOnceSetup ⟨true, false, false⟩).earlyResult
        = some (-1, ExitClassification.failedToStart stage)) ∧
      (runOnceSetup ⟨true, false, false⟩).escalatorStarted = false) ∧
    (((true : Bool) || false) = true →
      (runOnceSetup ⟨true, false, false⟩).relaysStarted = 0) ∧
    ((true : Bool) = false → (false : Bool) = false → (false : Bool) = true →
      (runOnceSetup ⟨true, false, false⟩).relaysStarted = 2) ∧
    ((true : Bool) = false → (false : Bool) = false → (false : Bool) = false →
      (runOnceSetup ⟨true, false, false⟩).earlyResult = none ∧
      (runOnceSetup ⟨true, false, false⟩).relaysStarted = 2 ∧
      (runOnceSetup ⟨true, false, false⟩).escalatorStarted = true) :=
  runOnceSetup_failure_policy ⟨true, false, false⟩

/-! ## `sigProcessGroup` (pmuxlib/proc.go lines 70-86) -/

/-- Outcome of one `sigProcessGroup` call: the log lines it emitted, and
whether it returned normally or panicked with a message. -/
inductive SigOutcome
  | completed (logs : List String)
  | panicked (logs : List String) (msg : String)
deriving DecidableEq, Repr

/-- Whether a `sigProcessGroup` call ended in a panic. -/
def SigOutcome.isPanic : SigOutcome → Bool
  | SigOutcome.completed _ => false
  | SigOutcome.panicked _ _ => true

/-- pmuxlib's `sigProcessGroup` (proc.go lines 70-86): log
"sending ... signal", then `syscall.Kill(-proc.Pid, sig)`; when the kill
returns an error the function panics with the wrapped error.  `killOk` is
whether the kill call succeeded. -/
def sigProcessGroup (sig : String) (killOk : Bool) : SigOutcome :=
  let logs := ["sending " ++ sig ++ " signal"]
  if killOk then SigOutcome.completed logs
  else SigOutcome.panicked logs ("failed to send " ++ sig ++ " signal")

/-- C7 counterexample: a failed interrupt delivery makes `sigProcessGroup`
panic — signal delivery failure is fatal and propagated, contradicting the
claim that it is logged, never panicking. -/
theorem sigProcessGroup_failure_is_fatal :
    (sigProcessGroup "interrupt" false).isPanic = true ∧
    sigProcessGroup "interrupt" false
      = SigOutcome.panicked ["sending interrupt signal"]
          "failed to send interrupt signal" := by
  constructor <;> rfl

/-- C7 amended: `sigProcessGroup` logs the send attempt and is not retried;
but a delivery failure is not best-effort — it panics with the wrapped
error (fatal), while a successful delivery completes normally with only the
send log line. -/
theorem sigProcessGroup_panics_on_failure (sig : String) (killOk : Bool) :
    (killOk = true → sigProcessGroup sig killOk
      = SigOutcome.completed ["sending " ++ sig ++ " signal"]) ∧
    (killOk = false → (sigProcessGroup sig killOk).isPanic = true) := by
  constructor <;> intro h <;> simp [sigProcessGroup, h, SigOutcome.isPanic]

/-- Witness for `sigProcessGroup_panics_on_failure` at a successful kill. -/
theorem sigProcessGroup_panics_on_failure_witness :
    ((true : Bool) = true → sigProcessGroup "killed" true
      = SigOutcome.completed ["sending " ++ "killed" ++ " signal"]) ∧
    ((true : Bool) = false → (sigProcessGroup "killed" true).isPanic = true) :=
  sigProcessGroup_panics_on_failure "killed" true

/-! ## Logger close semantics
(pmuxlib logger file `Close`/`println`/`withPName`/`withSep`; main.go logger
lines 78-163)

The Go `logger` struct holds `out io.Writer` and `outBuf *bufio.Writer`.
`withPName`/`withSep`/`WithPrefix` do `l2 := *l`, a struct copy: the copy
shares the `*bufio.Writer` pointer and denotes the same destination.
`Close` rebinds only the receiver struct's `out`/`outBuf` fields, so a view
derived before `Close` keeps the original writer.  We model this with an
explicit heap of buffered-writer cells; a view holds the address of its
writer cell, and the strings stand for fully formatted lines. -/

/-- An output destination: the real writer given to `newLogger`, or
`ioutil.Discard`. -/
inductive Dest
  | real
  | discard
deriving DecidableEq, Repr

/-- A `bufio.Writer`: the destination it was created over and its pending
(not yet flushed) content. -/
structure BufWriter where
  dest : Dest
  pending : List String
deriving DecidableEq, Repr

/-- Update one cell of a writer heap. -/
def cellSet (f : Nat → BufWriter) (a : Nat) (c : BufWriter) :
    Nat → BufWriter :=
  fun b => if b = a then c else f b

/-- The world of the pmuxlib logger: the allocated writer cells and
everything ever written to the real destination. -/
structure LogWorld where
  next : Nat
  cells : Nat → BufWriter
  realOut : List String

/-- The I/O fields of one `logger` struct value: the `out` interface value
and the `outBuf` pointer.  Struct copies share `bufAddr`. -/
structure LogView where
  outDest : Dest
  bufAddr : Nat
deriving DecidableEq, Repr

/-- `outBuf.Flush()` on the cell at `a`: pending lines reach the cell's
destination (and are recorded only when that destination is the real
one). -/
def cellFlush (w : LogWorld) (a : Nat) : LogWorld :=
  match (w.cells a).dest with
  | Dest.real =>
      ⟨w.next, cellSet w.cells a ⟨Dest.real, []⟩,
       w.realOut ++ (w.cells a).pending⟩
  | Dest.discard =>
      ⟨w.next, cellSet w.cells a ⟨Dest.discard, []⟩, w.realOut⟩

/-- `newLogger` (logger file lines 64-84): `outBuf := bufio.NewWriter(out)`
over the real destination. -/
def newLoggerW (w : LogWorld) : LogWorld × LogView :=
  (⟨w.next + 1, cellSet w.cells w.next ⟨Dest.real, []⟩, w.realOut⟩,
   ⟨Dest.real, w.next⟩)

/-- `withPName` / `withSep` as seen by the I/O fields (logger file lines
86-104): `l2 := *l` copies the struct, so the derived view keeps the same
`out` value and the same `outBuf` pointer. -/
def deriveView (v : LogView) : LogView :=
  ⟨v.outDest, v.bufAddr⟩

/-- pmuxlib logger `println` (logger file lines 126-150): format into
`l.outBuf`, then `l.outBuf.Flush()` — synchronously, on every write,
through whatever writer this view's struct holds. -/
def printlnW (w : LogWorld) (v : LogView) (line : String) : LogWorld :=
  cellFlush
    ⟨w.next,
     cellSet w.cells v.bufAddr
       ⟨(w.cells v.bufAddr).dest, (w.cells v.bufAddr).pending ++ [line]⟩,
     w.realOut⟩
    v.bufAddr

/-- pmuxlib logger `Close` (logger file lines 106-124): flush the
receiver's `outBuf`, best-effort sync the destination, then set `l.out =
ioutil.Discard` and `l.outBuf = bufio.NewWriter(l.out)`.  Only the
receiver struct's fields are rebound; the returned view is the receiver
afterwards, and every other view still holds its old writer cell. -/
def closeW (w : LogWorld) (v : LogView) : LogWorld × LogView :=
  (⟨(cellFlush w v.bufAddr).next + 1,
    cellSet (cellFlush w v.bufAddr).cells (cellFlush w v.bufAddr).next
      ⟨Dest.discard, []⟩,
    (cellFlush w v.bufAddr).realOut⟩,
   ⟨Dest.discard, (cellFlush w v.bufAddr).next⟩)

/-- Operations invoked through one view of the pmuxlib logger. -/
inductive ViewOp
  | println (line : String)
  | close
deriving DecidableEq, Repr

def applyViewOps (w : LogWorld) (v : LogView) : List ViewOp → LogWorld × LogView
  | [] => (w, v)
  | ViewOp.println s :: rest => applyViewOps (printlnW w v s) v rest
  | ViewOp.close :: rest => applyViewOps (closeW w v).1 (closeW w v).2 rest

/-- The world of main.go's logger: the same, plus the shared `closeCh`
channel (channels are reference values, so all struct copies share it). -/
structure MainWorld where
  next : Nat
  cells : Nat → BufWriter
  realOut : List String
  chClosed : Bool

def newMainLoggerW (w : MainWorld) : MainWorld × LogView :=
  (⟨w.next + 1, cellSet w.cells w.next ⟨Dest.real, []⟩, w.realOut,
    w.chClosed⟩,
   ⟨Dest.real, w.next⟩)

/-- main.go logger `println` (main.go lines 133-155): format into the
view's `outBuf`; no synchronous flush. -/
def mainPrintlnW (w : MainWorld) (v : LogView) (line : String) : MainWorld :=
  ⟨w.next,
   cellSet w.cells v.bufAddr
     ⟨(w.cells v.bufAddr).dest, (w.cells v.bufAddr).pending ++ [line]⟩,
   w.realOut, w.chClosed⟩

def mainCellFlush (w : MainWorld) (a : Nat) : MainWorld :=
  match (w.cells a).dest with
  | Dest.real =>
      ⟨w.next, cellSet w.cells a ⟨Dest.real, []⟩,
       w.realOut ++ (w.cells a).pending, w.chClosed⟩
  | Dest.discard =>
      ⟨w.next, cellSet w.cells a ⟨Dest.discard, []⟩, w.realOut, w.chClosed⟩

/-- main.go logger `Close` (main.go lines 93-114): `close(l.closeCh)` —
Go's `close` of an already-closed channel panics, and `closeCh` is shared
by every view — then wait for the flusher, flush the receiver's `outBuf`,
best-effort sync, and rebind the receiver's `out`/`outBuf` to a discard
target. -/
def mainCloseW (w : MainWorld) (v : LogView) :
    Except String (MainWorld × LogView) :=
  if w.chClosed then Except.error "close of closed channel"
  else
    Except.ok
      (⟨(mainCellFlush w v.bufAddr).next + 1,
        cellSet (mainCellFlush w v.bufAddr).cells
          (mainCellFlush w v.bufAddr).next ⟨Dest.discard, []⟩,
        (mainCellFlush w v.bufAddr).realOut, true⟩,
       ⟨Dest.discard, (mainCellFlush w v.bufAddr).next⟩)

theorem cellFlush_next (w : LogWorld) (a : Nat) :
    (cellFlush w a).next = w.next := by
  unfold cellFlush
  split <;> rfl

theorem cellFlush_dest (w : LogWorld) (a b : Nat) :
    ((cellFlush w a).cells b).dest = (w.cells b).dest := by
  unfold cellFlush
  split <;> rename_i hd <;> by_cases hb : b = a <;>
    simp [cellSet, hb, hd]

theorem cellFlush_realOut_discard (w : LogWorld) (a : Nat)
    (h : (w.cells a).dest = Dest.discard) :
    (cellFlush w a).realOut = w.realOut := by
  unfold cellFlush
  rw [h]

theorem printlnW_real (w : LogWorld) (v : LogView) (line : String)
    (h : (w.cells v.bufAddr).dest = Dest.real) :
    (printlnW w v line).realOut
      = w.realOut ++ ((w.cells v.bufAddr).pending ++ [line]) := by
  unfold printlnW cellFlush
  simp [cellSet, h]

theorem printlnW_discard (w : LogWorld) (v : LogView) (line : String)
    (h : (w.cells v.bufAddr).dest = Dest.discard) :
    (printlnW w v line).realOut = w.realOut ∧
    ((printlnW w v line).cells v.bufAddr).dest = Dest.discard := by
  unfold printlnW cellFlush
  simp [cellSet, h]

theorem closeW_closed_cell (w : LogWorld) (v : LogView) :
    ((closeW w v).1.cells (closeW w v).2.bufAddr).dest = Dest.discard := by
  simp [closeW, cellSet]

theorem closeW_realOut_discard (w : LogWorld) (v : LogView)
    (h : (w.cells v.bufAddr).dest = Dest.discard) :
    (closeW w v).1.realOut = w.realOut := by
  show (cellFlush w v.bufAddr).realOut = w.realOut
  exact cellFlush_realOut_discard w v.bufAddr h

theorem closeW_other_cell_dest (w : LogWorld) (v : LogView) (b : Nat)
    (hb : b < w.next) :
    ((closeW w v).1.cells b).dest = (w.cells b).dest := by
  show ((cellSet (cellFlush w v.bufAddr).cells (cellFlush w v.bufAddr).next
      ⟨Dest.discard, []⟩) b).dest = (w.cells b).dest
  unfold cellSet
  rw [cellFlush_next]
  rw [if_neg (by omega)]
  exact cellFlush_dest w v.bufAddr b

theorem applyViewOps_discard (ops : List ViewOp) (w : LogWorld)
    (v : LogView) (h : (w.cells v.bufAddr).dest = Dest.discard) :
    (applyViewOps w v ops).1.realOut = w.realOut ∧
    ((applyViewOps w v ops).1.cells (applyViewOps w v ops).2.bufAddr).dest
      = Dest.discard := by
  induction ops generalizing w v with
  | nil => exact ⟨rfl, h⟩
  | cons op rest ih =>
      rcases op with s | _
      · obtain ⟨h1, h2⟩ := printlnW_discard w v s h
        obtain ⟨ha, hb⟩ := ih (printlnW w v s) v h2
        constructor
        · show (applyViewOps (printlnW w v s) v rest).1.realOut = w.realOut
          rw [ha, h1]
        · exact hb
      · obtain ⟨ha, hb⟩ :=
          ih (closeW w v).1 (closeW w v).2 (closeW_closed_cell w v)
        constructor
        · show (applyViewOps (closeW w v).1 (closeW w v).2 rest).1.realOut
            = w.realOut
          rw [ha, closeW_realOut_discard w v h]
        · exact hb

/-- C8 counterexample: derive a view from a freshly created pmuxlib sink,
close the root, then `Println` through the previously derived view — the
line reaches the real destination, because `Close` rebinds only the
receiver's `out`/`outBuf` while the derived struct copy still holds the
original writer (and pmuxlib's `println` flushes synchronously); and for
main.go's logger (also cited by the claim), a second `Close` panics on
closing the already-closed shared `closeCh`. -/
theorem logger_close_not_fenced_for_views :
    (printlnW
        (closeW (newLoggerW ⟨0, fun _ => ⟨Dest.discard, []⟩, []⟩).1
          (newLoggerW ⟨0, fun _ => ⟨Dest.discard, []⟩, []⟩).2).1
        (deriveView (newLoggerW ⟨0, fun _ => ⟨Dest.discard, []⟩, []⟩).2)
        "hi").realOut = ["hi"] ∧
    (closeW (newLoggerW ⟨0, fun _ => ⟨Dest.discard, []⟩, []⟩).1
        (newLoggerW ⟨0, fun _ => ⟨Dest.discard, []⟩, []⟩).2).1.realOut
      = [] ∧
    (mainCloseW (newMainLoggerW ⟨0, fun _ => ⟨Dest.discard, []⟩, [], false⟩).1
        (newMainLoggerW ⟨0, fun _ => ⟨Dest.discard, []⟩, [], false⟩).2).bind
      (fun p => mainCloseW p.1 p.2)
      = Except.error "close of closed channel" := by
  refine ⟨rfl, rfl, rfl⟩

/-- C8 amended: `Close` fences only its receiver.  For the pmuxlib logger,
every later operation through the handle `Close` returned (writes, further
closes — including a second `Close`, which never panics) is a safe no-op
that never reaches the real destination; but view derivation copies the
`out`/`outBuf` fields, so a view derived before `Close` keeps the original
real-bound writer, its cell survives the root's `Close` untouched, and a
`Println` through it afterwards still writes to the real destination.  For
main.go's logger, `println` itself never writes directly to the
destination (only flushes do), and a second `Close` — through any view,
since `closeCh` is shared — panics on closing the closed channel. -/
theorem logger_close_alias_semantics (w : LogWorld) (v : LogView)
    (ops : List ViewOp) (line : String) (mw : MainWorld) (mv : LogView) :
    (applyViewOps (closeW w v).1 (closeW w v).2 ops).1.realOut
      = (closeW w v).1.realOut ∧
    (closeW (closeW w v).1 (closeW w v).2).1.realOut
      = (closeW w v).1.realOut ∧
    deriveView v = v ∧
    ((w.cells v.bufAddr).dest = Dest.real →
      (printlnW w v line).realOut
        = w.realOut ++ ((w.cells v.bufAddr).pending ++ [line])) ∧
    (v.bufAddr < w.next →
      ((closeW w v).1.cells v.bufAddr).dest = (w.cells v.bufAddr).dest) ∧
    (mainPrintlnW mw mv line).realOut = mw.realOut ∧
    (mw.chClosed = true →
      mainCloseW mw mv = Except.error "close of closed channel") ∧
    (∀ p, mainCloseW mw mv = Except.ok p →
      p.1.chClosed = true ∧
      mainCloseW p.1 p.2 = Except.error "close of closed channel") := by
  refine ⟨(applyViewOps_discard ops (closeW w v).1 (closeW w v).2
      (closeW_closed_cell w v)).1,
    closeW_realOut_discard (closeW w v).1 (closeW w v).2
      (closeW_closed_cell w v),
    rfl, printlnW_real w v line, closeW_other_cell_dest w v v.bufAddr,
    rfl, ?_, ?_⟩
  · intro hc
    unfold mainCloseW
    rw [if_pos hc]
  · intro p hp
    unfold mainCloseW at hp
    by_cases hc : mw.chClosed
    · rw [if_pos hc] at hp
      cases hp
    · rw [if_neg hc] at hp
      cases hp
      refine ⟨rfl, ?_⟩
      unfold mainCloseW
      rw [if_pos rfl]

/-- Witness for `logger_close_alias_semantics`: a one-cell world whose
writer is real-bound, the view addressing it, one post-close write, and a
fresh main.go logger world. -/
theorem logger_close_alias_semantics_witness :
    (applyViewOps
        (closeW ⟨1, fun _ => ⟨Dest.real, []⟩, []⟩ ⟨Dest.real, 0⟩).1
        (closeW ⟨1, fun _ => ⟨Dest.real, []⟩, []⟩ ⟨Dest.real, 0⟩).2
        [ViewOp.println "x"]).1.realOut
      = (closeW ⟨1, fun _ => ⟨Dest.real, []⟩, []⟩ ⟨Dest.real, 0⟩).1.realOut ∧
    (closeW (closeW ⟨1, fun _ => ⟨Dest.real, []⟩, []⟩ ⟨Dest.real, 0⟩).1
        (closeW ⟨1, fun _ => ⟨Dest.real, []⟩, []⟩ ⟨Dest.real, 0⟩).2).1.realOut
      = (closeW ⟨1, fun _ => ⟨Dest.real, []⟩, []⟩ ⟨Dest.real, 0⟩).1.realOut ∧
    deriveView ⟨Dest.real, 0⟩ = ⟨Dest.real, 0⟩ ∧
    (((⟨1, fun _ => ⟨Dest.real, []⟩, []⟩ : LogWorld).cells 0).dest = Dest.real →
      (printlnW ⟨1, fun _ => ⟨Dest.real, []⟩, []⟩ ⟨Dest.real, 0⟩ "y").realOut
        = ([] : List String)
          ++ (((⟨1, fun _ => ⟨Dest.real, []⟩, []⟩ : LogWorld).cells 0).pending
            ++ ["y"])) ∧
    ((0 : Nat) < 1 →
      ((closeW ⟨1, fun _ => ⟨Dest.real, []⟩, []⟩ ⟨Dest.real, 0⟩).1.cells 0).dest
        = ((⟨1, fun _ => ⟨Dest.real, []⟩, []⟩ : LogWorld).cells 0).dest) ∧
    (mainPrintlnW ⟨1, fun _ => ⟨Dest.real, []⟩, [], false⟩ ⟨Dest.real, 0⟩
        "y").realOut = ([] : List String) ∧
    ((⟨1, fun _ => ⟨Dest.real, []⟩, [], false⟩ : MainWorld).chClosed = true →
      mainCloseW ⟨1, fun _ => ⟨Dest.real, []⟩, [], false⟩ ⟨Dest.real, 0⟩
        = Except.error "close of closed channel") ∧
    (∀ p, mainCloseW ⟨1, fun _ => ⟨Dest.real, []⟩, [], false⟩ ⟨Dest.real, 0⟩
        = Except.ok p →
      p.1.chClosed = true ∧
      mainCloseW p.1 p.2 = Except.error "close of closed channel") :=
  logger_close_alias_semantics ⟨1, fun _ => ⟨Dest.real, []⟩, []⟩
    ⟨Dest.real, 0⟩ [ViewOp.println "x"] "y"
    ⟨1, fun _ => ⟨Dest.real, []⟩, [], false⟩ ⟨Dest.real, 0⟩


/-! ## Shared label-width register
(pmuxlib logger file: `newLogger`, `withSep`, `withPName`, `println`) -/

/-- A heap of `uint64` cells with an allocation counter; `maxPNameLen` is a
pointer into it, copied — not dereferenced-and-copied — by view
derivation. -/
structure Heap where
  next : Nat
  mem : Nat → Nat

def heapGet (h : Heap) (a : Nat) : Nat := h.mem a

def heapSet (h : Heap) (a : Nat) (v : Nat) : Heap :=
  ⟨h.next, fun b => if b = a then v else h.mem b⟩

/-- The fields of the pmuxlib logger involved in label formatting: the
address of the shared width register, and the view's own label and
separator. -/
structure LoggerView where
  regAddr : Nat
  pname : List Char
  sep : Char
deriving DecidableEq, Repr

def pmuxPName : List Char := ['p', 'm', 'u', 'x']

/-- `newLogger` (logger file lines 64-84): allocates a fresh
`maxPNameLen` register initialized to `len("pmux")`, the root view's own
name. -/
def newLogger (h : Heap) (sep : Char) : Heap × LoggerView :=
  (⟨h.next + 1, fun b => if b = h.next then pmuxPName.length else h.mem b⟩,
   ⟨h.next, pmuxPName, sep⟩)

/-- `withSep` (logger file lines 86-90): copy the view, change only the
separator; the heap and the register pointer are untouched. -/
def withSep (l : LoggerView) (sep : Char) : LoggerView :=
  ⟨l.regAddr, l.pname, sep⟩

/-- `withPName` (logger file lines 92-104): copy the view (sharing the
register pointer), set the name, and raise the shared register to the new
name's length when that is larger. -/
def withPName (h : Heap) (l : LoggerView) (pname : List Char) :
    Heap × LoggerView :=
  let l2 : LoggerView := ⟨l.regAddr, pname, l.sep⟩
  if pname.length > heapGet h l2.regAddr
  then (heapSet h l2.regAddr pname.length, l2)
  else (h, l2)

/-- Derivation steps producing new views from an existing one. -/
inductive DeriveOp
  | toPName (pname : List Char)
  | toSep (sep : Char)
deriving DecidableEq, Repr

def applyDerive (h : Heap) (l : LoggerView) : DeriveOp → Heap × LoggerView
  | DeriveOp.toPName p => withPName h l p
  | DeriveOp.toSep c => (h, withSep l c)

def applyDerives (h : Heap) (l : LoggerView) : List DeriveOp → Heap × LoggerView
  | [] => (h, l)
  | op :: rest =>
      applyDerives (applyDerive h l op).1 (applyDerive h l op).2 rest

/-- The labels registered by a derivation sequence. -/
def derivedPNames : List DeriveOp → List (List Char)
  | [] => []
  | DeriveOp.toPName p :: rest => p :: derivedPNames rest
  | DeriveOp.toSep _ :: rest => derivedPNames rest

/-- `strings.Repeat(" ", int(*l.maxPNameLen+1)-len(l.pname))` from
`println` (logger file line 144): Go's `strings.Repeat` panics on a
negative count, hence the `Option`. -/
def padTo (reg : Nat) (pname : List Char) : Option (List Char) :=
  let count : Int := (reg : Int) + 1 - pname.length
  if count < 0 then none
  else some (List.replicate count.toNat ' ')

/-- The formatted log line of `println` (logger file lines 140-147),
without the optional timestamp prefix: name, padding, separator glyph,
space, message, newline. -/
def formatLine (reg : Nat) (pname : List Char) (sep : Char)
    (line : List Char) : Option (List Char) :=
  match padTo reg pname with
  | none => none
  | some pad => some (pname ++ pad ++ [sep, ' '] ++ line ++ ['\n'])

theorem heapGet_heapSet (h : Heap) (a : Nat) (v : Nat) :
    heapGet (heapSet h a v) a = v := by
  simp [heapGet, heapSet]

theorem applyDerives_props (ops : List DeriveOp) (h : Heap) (l : LoggerView)
    (hinv : l.pname.length ≤ heapGet h l.regAddr) :
    (applyDerives h l ops).2.regAddr = l.regAddr ∧
    heapGet h l.regAddr ≤ heapGet (applyDerives h l ops).1 l.regAddr ∧
    (∀ p ∈ derivedPNames ops,
      p.length ≤ heapGet (applyDerives h l ops).1 l.regAddr) ∧
    (applyDerives h l ops).2.pname.length
      ≤ heapGet (applyDerives h l ops).1 l.regAddr := by
  induction ops generalizing h l with
  | nil => exact ⟨rfl, le_refl _, by simp [derivedPNames], hinv⟩
  | cons op rest ih =>
      rcases op with p | c
      · by_cases hgt : p.length > heapGet h l.regAddr
        · have e1 : applyDerive h l (DeriveOp.toPName p)
              = (heapSet h l.regAddr p.length, ⟨l.regAddr, p, l.sep⟩) := by
            simp [applyDerive, withPName, hgt]
          have hinv2 : (⟨l.regAddr, p, l.sep⟩ : LoggerView).pname.length
              ≤ heapGet (heapSet h l.regAddr p.length)
                  (⟨l.regAddr, p, l.sep⟩ : LoggerView).regAddr := by
            simp [heapGet_heapSet]
          obtain ⟨ha, hm, hall, hp⟩ := ih (heapSet h l.regAddr p.length)
            ⟨l.regAddr, p, l.sep⟩ hinv2
          refine ⟨?_, ?_, ?_, ?_⟩
          · simpa [applyDerives, e1] using ha
          · have : heapGet h l.regAddr
                ≤ heapGet (heapSet h l.regAddr p.length) l.regAddr := by
              rw [heapGet_heapSet]; omega
            simp only [applyDerives, e1]
            exact le_trans this hm
          · intro q hq
            simp only [derivedPNames, List.mem_cons] at hq
            rcases hq with hq | hq
            · subst hq
              simp only [applyDerives, e1]
              exact le_trans (le_of_eq (heapGet_heapSet h l.regAddr q.length).symm) hm
            · simpa [applyDerives, e1] using hall q hq
          · simpa [applyDerives, e1] using hp
        · have e1 : applyDerive h l (DeriveOp.toPName p)
              = (h, ⟨l.regAddr, p, l.sep⟩) := by
            simp [applyDerive, withPName, hgt]
          have hinv2 : (⟨l.regAddr, p, l.sep⟩ : LoggerView).pname.length
              ≤ heapGet h (⟨l.regAddr, p, l.sep⟩ : LoggerView).regAddr := by
            simp only [heapGet]
            simp only [heapGet] at hgt
            omega
          obtain ⟨ha, hm, hall, hp⟩ := ih h ⟨l.regAddr, p, l.sep⟩ hinv2
          refine ⟨?_, ?_, ?_, ?_⟩
          · simpa [applyDerives, e1] using ha
          · simpa [applyDerives, e1] using hm
          · intro q hq
            simp only [derivedPNames, List.mem_cons] at hq
            rcases hq with hq | hq
            · subst hq
              have := le_trans (le_of_not_lt hgt) hm
              simpa [applyDerives, e1] using this
            · simpa [applyDerives, e1] using hall q hq
          · simpa [applyDerives, e1] using hp
      · have e1 : applyDerive h l (DeriveOp.toSep c)
            = (h, ⟨l.regAddr, l.pname, c⟩) := rfl
        obtain ⟨ha, hm, hall, hp⟩ := ih h ⟨l.regAddr, l.pname, c⟩ hinv
        exact ⟨by simpa [applyDerives, e1] using ha,
          by simpa [applyDerives, e1] using hm,
          by simpa [applyDerives, e1, derivedPNames] using hall,
          by simpa [applyDerives, e1] using hp⟩

theorem formatLine_width {reg : Nat} {pname : List Char} (sep : Char)
    (line : List Char) (hle : pname.length ≤ reg) :
    padTo reg pname = some (List.replicate (reg + 1 - pname.length) ' ') ∧
    formatLine reg pname sep line
      = some (pname ++ List.replicate (reg + 1 - pname.length) ' '
          ++ [sep, ' '] ++ line ++ ['\n']) ∧
    (pname ++ List.replicate (reg + 1 - pname.length) ' ').length
      = reg + 1 := by
  have hpad : padTo reg pname
      = some (List.replicate (reg + 1 - pname.length) ' ') := by
    unfold padTo
    rw [if_neg (by omega)]
    congr 1
    congr 1
    omega
  refine ⟨hpad, ?_, ?_⟩
  · unfold formatLine
    rw [hpad]
  · simp only [List.length_append, List.length_replicate]
    omega

/-- C9: the shared maximum-label-width register is monotone non-decreasing
(each `withPName` raises it to the max of its value and the new name's
length; no derivation ever lowers it), it is shared by pointer by every
view derived from the same root (all views keep the root's register
address), every registered label's length is bounded by the register, and
a line written afterwards by the final view pads its label to exactly the
current register value plus one. -/
theorem width_register_shared_monotone (h : Heap) (l : LoggerView)
    (ops : List DeriveOp) (line : List Char)
    (hinv : l.pname.length ≤ heapGet h l.regAddr) :
    (applyDerives h l ops).2.regAddr = l.regAddr ∧
    heapGet h l.regAddr ≤ heapGet (applyDerives h l ops).1 l.regAddr ∧
    (∀ p ∈ derivedPNames ops,
      p.length ≤ heapGet (applyDerives h l ops).1 l.regAddr) ∧
    formatLine (heapGet (applyDerives h l ops).1 (applyDerives h l ops).2.regAddr)
        (applyDerives h l ops).2.pname (applyDerives h l ops).2.sep line
      = some ((applyDerives h l ops).2.pname
          ++ List.replicate
              (heapGet (applyDerives h l ops).1 (applyDerives h l ops).2.regAddr
                + 1 - (applyDerives h l ops).2.pname.length) ' '
          ++ [(applyDerives h l ops).2.sep, ' '] ++ line ++ ['\n']) ∧
    ((applyDerives h l ops).2.pname
        ++ List.replicate
            (heapGet (applyDerives h l ops).1 (applyDerives h l ops).2.regAddr
              + 1 - (applyDerives h l ops).2.pname.length) ' ').length
      = heapGet (applyDerives h l ops).1 (applyDerives h l ops).2.regAddr + 1 := by
  obtain ⟨ha, hm, hall, hp⟩ := applyDerives_props ops h l hinv
  have hle : (applyDerives h l ops).2.pname.length
      ≤ heapGet (applyDerives h l ops).1 (applyDerives h l ops).2.regAddr := by
    rw [ha]; exact hp
  obtain ⟨_, hfmt, hwidth⟩ :=
    formatLine_width (applyDerives h l ops).2.sep line hle
  exact ⟨ha, hm, hall, hfmt, hwidth⟩

/-- Witness for `width_register_shared_monotone`: a root logger freshly
allocated by `newLogger` on an empty heap, one wider label registered. -/
theorem width_register_shared_monotone_witness :
    (applyDerives (newLogger ⟨0, fun _ => 0⟩ '~').1
        (newLogger ⟨0, fun _ => 0⟩ '~').2
        [DeriveOp.toPName ['w', 'o', 'r', 'k', 'e', 'r']]).2.regAddr
      = (newLogger ⟨0, fun _ => 0⟩ '~').2.regAddr ∧
    heapGet (newLogger ⟨0, fun _ => 0⟩ '~').1
        (newLogger ⟨0, fun _ => 0⟩ '~').2.regAddr
      ≤ heapGet (applyDerives (newLogger ⟨0, fun _ => 0⟩ '~').1
          (newLogger ⟨0, fun _ => 0⟩ '~').2
          [DeriveOp.toPName ['w', 'o', 'r', 'k', 'e', 'r']]).1
          (newLogger ⟨0, fun _ => 0⟩ '~').2.regAddr ∧
    (∀ p ∈ derivedPNames [DeriveOp.toPName ['w', 'o', 'r', 'k', 'e', 'r']],
      p.length ≤ heapGet (applyDerives (newLogger ⟨0, fun _ => 0⟩ '~').1
          (newLogger ⟨0, fun _ => 0⟩ '~').2
          [DeriveOp.toPName ['w', 'o', 'r', 'k', 'e', 'r']]).1
          (newLogger ⟨0, fun _ => 0⟩ '~').2.regAddr) ∧
    formatLine
        (heapGet (applyDerives (newLogger ⟨0, fun _ => 0⟩ '~').1
            (newLogger ⟨0, fun _ => 0⟩ '~').2
            [DeriveOp.toPName ['w', 'o', 'r', 'k', 'e', 'r']]).1
          (applyDerives (newLogger ⟨0, fun _ => 0⟩ '~').1
            (newLogger ⟨0, fun _ => 0⟩ '~').2
            [DeriveOp.toPName ['w', 'o', 'r', 'k', 'e', 'r']]).2.regAddr)
        (applyDerives (newLogger ⟨0, fun _ => 0⟩ '~').1
          (newLogger ⟨0, fun _ => 0⟩ '~').2
          [DeriveOp.toPName ['w', 'o', 'r', 'k', 'e', 'r']]).2.pname
        (applyDerives (newLogger ⟨0, fun _ => 0⟩ '~').1
          (newLogger ⟨0, fun _ => 0⟩ '~').2
          [DeriveOp.toPName ['w', 'o', 'r', 'k', 'e', 'r']]).2.sep
        ['h', 'i']
      = some ((applyDerives (newLogger ⟨0, fun _ => 0⟩ '~').1
            (newLogger ⟨0, fun _ => 0⟩ '~').2
            [DeriveOp.toPName ['w', 'o', 'r', 'k', 'e', 'r']]).2.pname
          ++ List.replicate
              (heapGet (applyDerives (newLogger ⟨0, fun _ => 0⟩ '~').1
                  (newLogger ⟨0, fun _ => 0⟩ '~').2
                  [DeriveOp.toPName ['w', 'o', 'r', 'k', 'e', 'r']]).1
                (applyDerives (newLogger ⟨0, fun _ => 0⟩ '~').1
                  (newLogger ⟨0, fun _ => 0⟩ '~').2
                  [DeriveOp.toPName ['w', 'o', 'r', 'k', 'e', 'r']]).2.regAddr
                + 1
                - (applyDerives (newLogger ⟨0, fun _ => 0⟩ '~').1
                    (newLogger ⟨0, fun _ => 0⟩ '~').2
                    [DeriveOp.toPName ['w', 'o', 'r', 'k', 'e', 'r']]).2.pname.length)
              ' '
          ++ [(applyDerives (newLogger ⟨0, fun _ => 0⟩ '~').1
              (newLogger ⟨0, fun _ => 0⟩ '~').2
              [DeriveOp.toPName ['w', 'o', 'r', 'k', 'e', 'r']]).2.sep, ' ']
          ++ ['h', 'i'] ++ ['\n']) ∧
    ((applyDerives (newLogger ⟨0, fun _ => 0⟩ '~').1
        (newLogger ⟨0, fun _ => 0⟩ '~').2
        [DeriveOp.toPName ['w', 'o', 'r', 'k', 'e', 'r']]).2.pname
      ++ List.replicate
          (heapGet (applyDerives (newLogger ⟨0, fun _ => 0⟩ '~').1
              (newLogger ⟨0, fun _ => 0⟩ '~').2
              [DeriveOp.toPName ['w', 'o', 'r', 'k', 'e', 'r']]).1
            (applyDerives (newLogger ⟨0, fun _ => 0⟩ '~').1
              (newLogger ⟨0, fun _ => 0⟩ '~').2
              [DeriveOp.toPName ['w', 'o', 'r', 'k', 'e', 'r']]).2.regAddr
            + 1
            - (applyDerives (newLogger ⟨0, fun _ => 0⟩ '~').1
                (newLogger ⟨0, fun _ => 0⟩ '~').2
                [DeriveOp.toPName ['w', 'o', 'r', 'k', 'e', 'r']]).2.pname.length)
          ' ').length
      = heapGet (applyDerives (newLogger ⟨0, fun _ => 0⟩ '~').1
            (newLogger ⟨0, fun _ => 0⟩ '~').2
            [DeriveOp.toPName ['w', 'o', 'r', 'k', 'e', 'r']]).1
          (applyDerives (newLogger ⟨0, fun _ => 0⟩ '~').1
            (newLogger ⟨0, fun _ => 0⟩ '~').2
            [DeriveOp.toPName ['w', 'o', 'r', 'k', 'e', 'r']]).2.regAddr + 1 :=
  width_register_shared_monotone (newLogger ⟨0, fun _ => 0⟩ '~').1
    (newLogger ⟨0, fun _ => 0⟩ '~').2
    [DeriveOp.toPName ['w', 'o', 'r', 'k', 'e', 'r']] ['h', 'i'] (by decide)

/-! ## The output relay `fwdOutPipe` (pmuxlib/proc.go lines 109-126) -/

/-- Go `bufio.Reader.ReadString('\n')` over the remaining stream content:
the data up to and including the first newline plus the rest of the stream,
or — at end of stream with no newline found — the data read so far together
with `none` (the `io.EOF` case). -/
def readString : List Char → List Char × Option (List Char)
  | [] => ([], none)
  | c :: rest =>
      if c = '\n' then ([c], some rest)
      else
        let r := readString rest
        (c :: r.1, r.2)

/-- `strings.TrimSuffix(line, "\n")`. -/
def trimSuffixNL (l : List Char) : List Char :=
  if l.getLast? = some '\n' then l.dropLast else l

theorem readString_rest_length :
    ∀ (s line rest : List Char), readString s = (line, some rest) →
      rest.length < s.length := by
  intro s
  induction s with
  | nil =>
      intro line rest h
      simp [readString] at h
  | cons c cs ih =>
      intro line rest h
      by_cases hc : c = '\n'
      · simp [readString, hc] at h
        simp [← h.2]
      · simp only [readString, if_neg hc] at h
        have h2 : (readString cs).2 = some rest := by
          have := congrArg Prod.snd h
          simpa using this
        have h3 : readString cs = ((readString cs).1, some rest) := by
          rw [← h2]
        have := ih (readString cs).1 rest h3
        simp only [List.length_cons]
        omega

/-- The `fwdOutPipe` reader loop (pmuxlib/proc.go lines 113-125): read a
line; on EOF return, forwarding nothing (the final unterminated fragment is
dropped); otherwise forward the line with its trailing newline stripped and
continue. -/
def fwdOutPipe (s : List Char) : List (List Char) :=
  match h : readString s with
  | (_, none) => []
  | (line, some rest) => trimSuffixNL line :: fwdOutPipe rest
termination_by s.length
decreasing_by exact readString_rest_length s line rest h

/-- Written from the spec's words: the newline-terminated lines of the
stream in order, each without its terminator; the final unterminated
fragment (which is what follows the last newline) contributes nothing. -/
def newlineTerminatedLines (s : List Char) : List (List Char) :=
  (s.splitOn '\n').dropLast

theorem fwdOutPipe_of_eof {s : List Char} (h : (readString s).2 = none) :
    fwdOutPipe s = [] := by
  unfold fwdOutPipe
  split
  · rfl
  · rename_i line rest heq
    rw [heq] at h
    cases h

theorem fwdOutPipe_of_line {s line rest : List Char}
    (h : readString s = (line, some rest)) :
    fwdOutPipe s = trimSuffixNL line :: fwdOutPipe rest := by
  conv_lhs => unfold fwdOutPipe
  split
  · rename_i l2 heq
    rw [heq] at h
    cases h
  · rename_i l2 r2 heq
    rw [heq] at h
    cases h
    rfl

theorem readString_no_newline (s : List Char) (h : '\n' ∉ s) :
    readString s = (s, none) := by
  induction s with
  | nil => rfl
  | cons c cs ih =>
      have hc : c ≠ '\n' := fun hh => h (hh ▸ List.mem_cons_self c cs)
      have hcs : '\n' ∉ cs := fun hh => h (List.mem_cons_of_mem c hh)
      simp [readString, hc, ih hcs]

theorem readString_finds_newline (pre rest : List Char) (h : '\n' ∉ pre) :
    readString (pre ++ '\n' :: rest) = (pre ++ ['\n'], some rest) := by
  induction pre with
  | nil => simp [readString]
  | cons c cs ih =>
      have hc : c ≠ '\n' := fun hh => h (hh ▸ List.mem_cons_self c cs)
      have hcs : '\n' ∉ cs := fun hh => h (List.mem_cons_of_mem c hh)
      simp [readString, hc, ih hcs]

theorem trimSuffixNL_terminated (pre : List Char) :
    trimSuffixNL (pre ++ ['\n']) = pre := by
  unfold trimSuffixNL
  rw [if_pos (List.getLast?_concat pre), List.dropLast_concat]

theorem firstNewline_split (s : List Char) (h : '\n' ∈ s) :
    ∃ pre rest, s = pre ++ '\n' :: rest ∧ '\n' ∉ pre := by
  induction s with
  | nil => cases h
  | cons c cs ih =>
      by_cases hc : c = '\n'
      · exact ⟨[], cs, by simp [hc], by simp⟩
      · have hmem : '\n' ∈ cs := by
          rcases List.mem_cons.mp h with hh | hh
          · exact absurd hh.symm hc
          · exact hh
        obtain ⟨pre, rest, h1, h2⟩ := ih hmem
        refine ⟨c :: pre, rest, by simp [h1], ?_⟩
        intro hh
        rcases List.mem_cons.mp hh with hh2 | hh2
        · exact hc hh2.symm
        · exact h2 hh2

theorem splitOn_first_newline (pre rest : List Char) (h : '\n' ∉ pre) :
    (pre ++ '\n' :: rest).splitOn '\n' = pre :: rest.splitOn '\n' := by
  have hsep : ('\n' == '\n') = true := by simp
  have hall : ∀ x ∈ pre, ¬((x == '\n') = true) := by
    intro x hx hb
    exact h (beq_iff_eq.mp hb ▸ hx)
  simpa [List.splitOn] using
    List.splitOnP_first (fun x => x == '\n') pre hall '\n' hsep rest

theorem fwdOutPipe_eq_spec :
    ∀ (n : Nat) (s : List Char), s.length ≤ n →
      fwdOutPipe s = newlineTerminatedLines s := by
  intro n
  induction n with
  | zero =>
      intro s hs
      have hnil : s = [] := List.eq_nil_of_length_eq_zero (Nat.le_zero.mp hs)
      subst hnil
      have heof : (readString ([] : List Char)).2 = none := rfl
      rw [fwdOutPipe_of_eof heof]
      simp [newlineTerminatedLines, List.splitOn_nil]
  | succ n ih =>
      intro s hs
      by_cases h : '\n' ∈ s
      · obtain ⟨pre, rest, rfl, hpre⟩ := firstNewline_split s h
        rw [fwdOutPipe_of_line (readString_finds_newline pre rest hpre)]
        rw [trimSuffixNL_terminated]
        have hlen : rest.length ≤ n := by
          simp only [List.length_append, List.length_cons] at hs
          omega
        rw [ih rest hlen]
        unfold newlineTerminatedLines
        rw [splitOn_first_newline pre rest hpre]
        have hnn : rest.splitOn '\n' ≠ [] := by
          simpa [List.splitOn] using
            List.splitOnP_ne_nil (fun x => x == '\n') rest
        rw [List.dropLast_cons_of_ne_nil hnn]
      · have heof : (readString s).2 = none := by
          rw [readString_no_newline s h]
        rw [fwdOutPipe_of_eof heof]
        unfold newlineTerminatedLines
        have hall : ∀ x ∈ s, ¬((x == '\n') = true) := by
          intro x hx hb
          exact h (beq_iff_eq.mp hb ▸ hx)
        rw [show s.splitOn '\n' = s.splitOnP (fun x => x == '\n') from rfl]
        rw [List.splitOnP_eq_single _ _ hall]
        rfl

/-- C10: the output relay forwards to the sink exactly the
newline-terminated lines of the input stream, in read order, each with its
trailing newline stripped; a final fragment not terminated by a newline is
silently discarded at end of stream (forwarding nothing); and a clean
end-of-stream produces no sink write at all. -/
theorem fwdOutPipe_exact_lines (s frag : List Char) (hfrag : '\n' ∉ frag) :
    fwdOutPipe s = newlineTerminatedLines s ∧
    fwdOutPipe frag = [] ∧
    fwdOutPipe [] = [] := by
  refine ⟨fwdOutPipe_eq_spec s.length s (le_refl _), ?_, ?_⟩
  · exact fwdOutPipe_of_eof (by rw [readString_no_newline frag hfrag])
  · exact fwdOutPipe_of_eof rfl

/-- Witness for `fwdOutPipe_exact_lines`: the stream "hi\nyo" (one
terminated line, one trailing fragment) and the fragment "yo". -/
theorem fwdOutPipe_exact_lines_witness :
    fwdOutPipe ['h', 'i', '\n', 'y', 'o']
      = newlineTerminatedLines ['h', 'i', '\n', 'y', 'o'] ∧
    fwdOutPipe ['y', 'o'] = [] ∧
    fwdOutPipe [] = [] :=
  fwdOutPipe_exact_lines ['h', 'i', '\n', 'y', 'o'] ['y', 'o'] (by decide)

end Pmux
